import Mathlib

/-!
# Verification of the payroll consolidation core (src/app.py)

Shallow embedding of the core helpers of the payroll consolidation
application: `process_payroll_file`, `derive_ref_columns`,
`reorder_like_reference` and `consolidate`.

A pandas DataFrame is modelled as a list of column names together with a
list of rows, each row being a total function from column names to cell
values (absent columns read as `Value.null`, matching NaN).  All string
helpers are implemented structurally on `List Char` so that concrete
instances evaluate by `decide`.
-/

/-- A parsed calendar date (what `pd.to_datetime` produces on success). -/
structure PDate where
  month : Nat
  day : Nat
  year : Nat
deriving DecidableEq, Repr

/-- A cell value: NaN/None/NaT (`null`), a string, a number, or a datetime. -/
inductive Value where
  | null : Value
  | str : String → Value
  | num : Int → Value
  | date : PDate → Value
deriving DecidableEq, Repr

/-- Stringification `astype(str)` of a cell: Python renders NaN as `"nan"`. -/
def Value.toStr : Value → String
  | .null => "nan"
  | .str s => s
  | .num n => toString n
  | .date d => toString d.year ++ "-" ++ toString d.month ++ "-" ++ toString d.day

/-- A DataFrame: ordered column labels and rows (total functions on labels). -/
structure DFrame where
  cols : List String
  rows : List (String → Value)

/-- Pointwise update `r[c] = v` of one row. -/
def upd (c : String) (v : Value) (r : String → Value) : String → Value :=
  fun c' => if c' = c then v else r c'

/-- Column assignment `df[c] = v` (scalar broadcast): replaces the column in place if it
exists, otherwise appends it at the end — pandas column-assignment. -/
def DFrame.setCol (df : DFrame) (c : String) (v : Value) : DFrame :=
  { cols := if c ∈ df.cols then df.cols else df.cols ++ [c],
    rows := df.rows.map (upd c v) }

/-- Column removal `df.drop(columns=[c], errors="ignore")`. -/
def DFrame.dropCol (df : DFrame) (c : String) : DFrame :=
  { cols := df.cols.filter (fun c' => decide (c' ≠ c)), rows := df.rows }

/-- Column projection `df[order]` (all names in `order` exist in `df`). -/
def DFrame.select (df : DFrame) (order : List String) : DFrame :=
  { cols := order, rows := df.rows }

/-! ## String helpers (structural, matching the Python string operations) -/

/-- Python `str.split(sep)` for a one-character separator, on char lists. -/
def splitOnChar (sep : Char) : List Char → List (List Char)
  | [] => [[]]
  | c :: cs =>
    let r := splitOnChar sep cs
    if c = sep then [] :: r
    else
      match r with
      | [] => [[c]]
      | h :: t => (c :: h) :: t

/-- Rejoin char-list fragments with a one-character separator. -/
def intercalateChar (sep : Char) : List (List Char) → List Char
  | [] => []
  | [x] => x
  | x :: xs => x ++ sep :: intercalateChar sep xs

/-- Python `name.rsplit(".", 1)[0]`: the name with everything after the last dot
removed; a name without a dot is returned unchanged. -/
def stripExt (s : String) : String :=
  let parts := splitOnChar '.' s.data
  if parts.length ≤ 1 then s else ⟨intercalateChar '.' parts.dropLast⟩

/-- Python `period.split("-", 1)`: split on the first hyphen; the second component
is `none` when the string contains no hyphen (pandas then reindexes the
missing part to NaN). -/
def splitPeriod (s : String) : String × Option String :=
  match splitOnChar '-' s.data with
  | [] => (s, none)
  | [a] => (⟨a⟩, none)
  | a :: rest => (⟨a⟩, some ⟨intercalateChar '-' rest⟩)

/-- Is `needle` a prefix of `hay`? -/
def leadMatch : List Char → List Char → Bool
  | [], _ => true
  | _ :: _, [] => false
  | a :: as, b :: bs => a == b && leadMatch as bs

/-- Python `needle in hay` substring test, on char lists. -/
def subMatch (needle : List Char) : List Char → Bool
  | [] => leadMatch needle []
  | b :: bs => leadMatch needle (b :: bs) || subMatch needle bs

/-- Python `base in c` substring containment on strings. -/
def containsSub (hay sub : String) : Bool :=
  subMatch sub.data hay.data

/-- Python `re.sub(r"\d+$", "", col)`: strip a trailing run of digits. -/
def stripTrailingDigits (s : String) : String :=
  ⟨(s.data.reverse.dropWhile Char.isDigit).reverse⟩

/-- ASCII lower-casing of a string (Python `str.lower`). -/
def lowerStr (s : String) : String :=
  ⟨s.data.map Char.toLower⟩

/-- Does `l` end with `suf`? -/
def endsWithList (suf l : List Char) : Bool :=
  leadMatch suf.reverse l.reverse

/-- Python `name.lower().endswith(".xlsx")`. -/
def isXlsx (name : String) : Bool :=
  endsWithList ".xlsx".data (lowerStr name).data

/-! ## Date parsing: `pd.to_datetime(s, format="%m%d%Y", errors="coerce")`

pandas compiles the format with CPython's `_strptime.TimeRE`, so `%m`
matches the alternatives `1[0-2]|0[1-9]|[1-9]` (in that order), `%d`
matches `3[01]|[12]\d|0[1-9]|[1-9]`, and `%Y` matches exactly four
digits; the regex engine backtracks across these alternatives, and a
successful match must then consume the whole string ("unconverted data"
check), after which the `datetime` constructor validates the calendar
date.  `errors="coerce"` turns every failure into a null date. -/

def digVal (c : Char) : Nat := c.toNat - 48

/-- Alternatives of `%m` (`1[0-2]`, `0[1-9]`, `[1-9]`), in regex order. -/
def mAlts (cs : List Char) : List (Nat × List Char) :=
  (match cs with
   | a :: b :: rest =>
     (if a == '1' && (b == '0' || b == '1' || b == '2') then [(10 + digVal b, rest)] else []) ++
     (if a == '0' && b.isDigit && !(b == '0') then [(digVal b, rest)] else [])
   | _ => []) ++
  (match cs with
   | a :: rest => if a.isDigit && !(a == '0') then [(digVal a, rest)] else []
   | _ => [])

/-- Alternatives of `%d` (`3[01]`, `[12]\d`, `0[1-9]`, `[1-9]`), in regex order. -/
def dAlts (cs : List Char) : List (Nat × List Char) :=
  (match cs with
   | a :: b :: rest =>
     (if a == '3' && (b == '0' || b == '1') then [(30 + digVal b, rest)] else []) ++
     (if (a == '1' || a == '2') && b.isDigit then [(10 * digVal a + digVal b, rest)] else []) ++
     (if a == '0' && b.isDigit && !(b == '0') then [(digVal b, rest)] else [])
   | _ => []) ++
  (match cs with
   | a :: rest => if a.isDigit && !(a == '0') then [(digVal a, rest)] else []
   | _ => [])

/-- Format `%Y`: exactly four digits. -/
def yParse (cs : List Char) : Option (Nat × List Char) :=
  match cs with
  | a :: b :: c :: d :: rest =>
    if a.isDigit && b.isDigit && c.isDigit && d.isDigit then
      some (1000 * digVal a + 100 * digVal b + 10 * digVal c + digVal d, rest)
    else none
  | _ => none

/-- The first `%m%d%Y` regex match, honouring backtracking order. -/
def regexMDY (cs : List Char) : Option (Nat × Nat × Nat × List Char) :=
  (mAlts cs).findSome? fun mc =>
    (dAlts mc.2).findSome? fun dc =>
      (yParse dc.2).map fun yc => (mc.1, dc.1, yc.1, yc.2)

def isLeap (y : Nat) : Bool :=
  (y % 4 == 0 && !(y % 100 == 0)) || (y % 400 == 0)

def daysInMonth (m y : Nat) : Nat :=
  if m = 2 then (if isLeap y then 29 else 28)
  else if m = 4 ∨ m = 6 ∨ m = 9 ∨ m = 11 then 30
  else 31

/-- Parsing `pd.to_datetime(s, format="%m%d%Y", errors="coerce")`: `none` is NaT. -/
def parseMMDDYYYY (s : String) : Option PDate :=
  match regexMDY s.data with
  | none => none
  | some (m, d, y, rest) =>
    if rest.isEmpty then
      if 1 ≤ y ∧ d ≤ daysInMonth m y then some ⟨m, d, y⟩ else none
    else none

/-- Formatting `strftime("%B")`: the full month name. -/
def monthName (m : Nat) : String :=
  if m = 1 then "January" else if m = 2 then "February" else if m = 3 then "March"
  else if m = 4 then "April" else if m = 5 then "May" else if m = 6 then "June"
  else if m = 7 then "July" else if m = 8 then "August" else if m = 9 then "September"
  else if m = 10 then "October" else if m = 11 then "November"
  else if m = 12 then "December" else ""

/-! ## Row Filter & Field Extractor (`process_payroll_file`) -/

/-- Row removal `df.drop(df.index[:2])` guarded by `len(df.index) >= 2`. -/
def dropSpacers (df : DFrame) : DFrame :=
  if df.rows.length ≥ 2 then { df with rows := df.rows.drop 2 } else df

/-- Python `re.match(r"^\d{3}-\d{6}$", s)`: three digits, hyphen, six digits.
`re.match` also lets `$` match just before one final newline. -/
def matchEmpId (s : String) : Bool :=
  match s.data with
  | [a, b, c, h, d, e, f, g, i, j] =>
    a.isDigit && b.isDigit && c.isDigit && h == '-' &&
    d.isDigit && e.isDigit && f.isDigit && g.isDigit && i.isDigit && j.isDigit
  | [a, b, c, h, d, e, f, g, i, j, nl] =>
    a.isDigit && b.isDigit && c.isDigit && h == '-' &&
    d.isDigit && e.isDigit && f.isDigit && g.isDigit && i.isDigit && j.isDigit &&
    nl == '\n'
  | _ => false

/-- The identifier-filter step: rows whose stringified `Employee ID*`
matches the pattern are retained; absent column means no filtering. -/
def empIdFilter (df : DFrame) : DFrame :=
  if "Employee ID*" ∈ df.cols then
    { df with rows := df.rows.filter (fun r => matchEmpId (Value.toStr (r "Employee ID*"))) }
  else df

/-- The split of the base filename on the first hyphen. -/
def payrollSplit (name : String) : String × Option String :=
  splitPeriod (stripExt name)

/-- Field `Payroll Type`: the part of the base filename before the first hyphen. -/
def payrollType (name : String) : String :=
  (payrollSplit name).1

/-- Field `Payroll Date` derived from the filename; `none` models NaT. -/
def payrollDate (name : String) : Option PDate :=
  match (payrollSplit name).2 with
  | none => none
  | some ds => parseMMDDYYYY ds

/-- The lambda mapped over `df["Payroll Date"].dt.day`.  `Series.map`
applies the function to NaN as well (`na_action=None` default), and
`NaN == 15` and `NaN in [30, 31]` are both `False`, so a missing day
falls through to `"Other"`. -/
def cutoffLambda (x : Option Nat) : String :=
  if x = some 15 then "First Cutoff"
  else if x = some 30 ∨ x = some 31 then "Second Cutoff"
  else "Other"

/-- The `Payroll Date` cell after `pd.to_datetime` (NaT for `none`). -/
def dateValue : Option PDate → Value
  | none => Value.null
  | some d => Value.date d

/-- The `Month` cell: `strftime("%B")` is NaN on NaT. -/
def monthValue : Option PDate → Value
  | none => Value.null
  | some d => Value.str (monthName d.month)

/-- The intermediate string `Payroll Date` cell (`split_df[1]`, possibly NaN). -/
def rawDateValue (name : String) : Value :=
  match (payrollSplit name).2 with
  | none => Value.null
  | some ds => Value.str ds

def leading : List String := ["Payroll Type", "Payroll Date", "Month", "Cutoff Type"]

/-- The combined per-row effect of the five column assignments. -/
def override (name : String) : (String → Value) → (String → Value) :=
  upd "Month" (monthValue (payrollDate name)) ∘
    (upd "Cutoff Type" (Value.str (cutoffLambda ((payrollDate name).map PDate.day))) ∘
      (upd "Payroll Date" (dateValue (payrollDate name)) ∘
        (upd "Payroll Date" (rawDateValue name) ∘
          (upd "Payroll Type" (Value.str (payrollType name)) ∘
            upd "Payroll Period" (Value.str (stripExt name))))))

/-- The five column assignments of `process_payroll_file`, in program order. -/
def addDerived (name : String) (df1 : DFrame) : DFrame :=
  (((((df1.setCol "Payroll Period" (Value.str (stripExt name))).setCol
      "Payroll Type" (Value.str (payrollType name))).setCol
      "Payroll Date" (rawDateValue name)).setCol
      "Payroll Date" (dateValue (payrollDate name))).setCol
      "Cutoff Type" (Value.str (cutoffLambda ((payrollDate name).map PDate.day)))).setCol
      "Month" (monthValue (payrollDate name))

/-- Core helper `process_payroll_file`: standardize one payroll table (the
`pd.read_excel` step is the fallible I/O boundary, modelled in `UFile`). -/
def process_payroll_file (name : String) (df0 : DFrame) : DFrame :=
  let df2 := addDerived name (empIdFilter (dropSpacers df0))
  let df3 := df2.dropCol "Payroll Period"
  df3.select (leading ++ df3.cols.filter (fun c => decide (c ∉ leading)))

/-! ## Reference Column Deriver and Column Reconciler -/

/-- An uploaded file: its name and the outcome of reading it as a table. -/
structure UFile where
  name : String
  content : Except String DFrame

/-- Reading and standardizing one uploaded file; an unreadable file fails. -/
def processFile (f : UFile) : Except String DFrame :=
  match f.content with
  | .error e => .error e
  | .ok df => .ok (process_payroll_file f.name df)

/-- Core helper `derive_ref_columns`: process the reference file once and return its
column list; any failure propagates (no recovery). -/
def derive_ref_columns (f : UFile) : Except String (List String) :=
  match processFile f with
  | .error e => .error e
  | .ok df => .ok df.cols

/-- Python `new_order.insert(i, x)` (list insert; clamps like take/drop). -/
def insertAt (l : List String) (i : Nat) (x : String) : List String :=
  l.take i ++ x :: l.drop i

/-- One step of the extras loop: find the positions of names containing
`base` (`near = [i for i, c in enumerate(new_order) if base and base in c]`),
insert after the last one, else append. -/
def insertNear (newOrder : List String) (col : String) : List String :=
  let base := stripTrailingDigits col
  let near := (List.range newOrder.length).filter
    (fun i => !(base == "") && containsSub (newOrder.getD i "") base)
  match near.getLast? with
  | some i => insertAt newOrder (i + 1) col
  | none => newOrder ++ [col]

/-- The "ensure uniqueness" loop: keep first occurrences that are real
columns of the table (`seen` is always exactly the set of `out`). -/
def uniqKeep (allCols : List String) : List String → List String → List String
  | acc, [] => acc
  | acc, c :: cs =>
    if c ∈ acc ∨ c ∉ allCols then uniqKeep allCols acc cs
    else uniqKeep allCols (acc ++ [c]) cs

/-- The "include any missing columns" loop. -/
def addMissing : List String → List String → List String
  | acc, [] => acc
  | acc, c :: cs =>
    if c ∈ acc then addMissing acc cs else addMissing (acc ++ [c]) cs

/-- The column-order computation of `reorder_like_reference`. -/
def reorderCols (allCols refCols : List String) : List String :=
  let extras := allCols.filter (fun c => decide (c ∉ refCols))
  let newOrder := extras.foldl insertNear refCols
  addMissing (uniqKeep allCols [] newOrder) allCols

/-- Core helper `reorder_like_reference`: reindex onto the computed order (the order
only names existing columns, so reindex is pure column selection). -/
def reorder_like_reference (df : DFrame) (refCols : List String) : DFrame :=
  df.select (reorderCols df.cols refCols)

/-! ## Consolidator -/

/-- Concatenation `pd.concat(dfs, ignore_index=True)`: columns are unioned in order of
first appearance; a row of a table lacking a column reads NaN there. -/
def concatTables (dfs : List DFrame) : DFrame :=
  { cols := dfs.foldl (fun acc df => acc ++ df.cols.filter (fun c => decide (c ∉ acc))) [],
    rows := dfs.flatMap (fun df =>
      df.rows.map (fun r c => if c ∈ df.cols then r c else Value.null)) }

/-- The per-file loop of `consolidate`: returns the accumulated tables,
processed names and skipped names.  A file's base name is added to
`seen` before extraction is attempted, and an extraction failure is
caught (warning only). -/
def consolidateAux : List UFile → List String → List DFrame × List String × List String
  | [], _ => ([], [], [])
  | f :: rest, seen =>
    if isXlsx f.name then
      if stripExt f.name ∈ seen then
        let r := consolidateAux rest seen
        (r.1, r.2.1, f.name :: r.2.2)
      else
        match processFile f with
        | .ok df =>
          let r := consolidateAux rest (stripExt f.name :: seen)
          (df :: r.1, f.name :: r.2.1, r.2.2)
        | .error _ =>
          let r := consolidateAux rest (stripExt f.name :: seen)
          (r.1, r.2.1, r.2.2)
    else consolidateAux rest seen

/-- Result of `consolidate`. -/
structure ConsResult where
  table : DFrame
  processed : List String
  skipped : List String

/-- Core helper `consolidate(payroll_uploads, ref_cols)`. -/
def consolidate (uploads : List UFile) (refCols : List String) : ConsResult :=
  let r := consolidateAux uploads []
  if r.1.isEmpty then ⟨⟨[], []⟩, r.2.1, r.2.2⟩
  else ⟨reorder_like_reference (concatTables r.1) refCols, r.2.1, r.2.2⟩

/-- The `seen_bases` set after the loop has traversed a prefix of files. -/
def seenAfter : List UFile → List String → List String
  | [], s => s
  | f :: l, s =>
    if isXlsx f.name then
      if stripExt f.name ∈ s then seenAfter l s
      else seenAfter l (stripExt f.name :: s)
    else seenAfter l s

/-! ## Structural lemmas about the extractor -/

theorem setCol_rows (df : DFrame) (c : String) (v : Value) :
    (df.setCol c v).rows = df.rows.map (upd c v) := rfl

theorem setCol_cols (df : DFrame) (c : String) (v : Value) :
    (df.setCol c v).cols = if c ∈ df.cols then df.cols else df.cols ++ [c] := rfl

theorem dropCol_rows (df : DFrame) (c : String) : (df.dropCol c).rows = df.rows := rfl

theorem dropCol_cols (df : DFrame) (c : String) :
    (df.dropCol c).cols = df.cols.filter (fun c' => decide (c' ≠ c)) := rfl

theorem select_rows (df : DFrame) (o : List String) : (df.select o).rows = df.rows := rfl

theorem select_cols (df : DFrame) (o : List String) : (df.select o).cols = o := rfl

theorem dropSpacers_cols (df : DFrame) : (dropSpacers df).cols = df.cols := by
  unfold dropSpacers; split <;> rfl

theorem empIdFilter_cols (df : DFrame) : (empIdFilter df).cols = df.cols := by
  unfold empIdFilter; split <;> rfl

theorem setCol_cols_filter (df : DFrame) (c : String) (v : Value) (p : String → Bool)
    (h : p c = false) : ((df.setCol c v).cols).filter p = df.cols.filter p := by
  rw [setCol_cols]
  split
  · rfl
  · simp [List.filter_append, h]

theorem addDerived_cols_filter (name : String) (df : DFrame) (p : String → Bool)
    (h1 : p "Payroll Period" = false) (h2 : p "Payroll Type" = false)
    (h3 : p "Payroll Date" = false) (h4 : p "Cutoff Type" = false)
    (h5 : p "Month" = false) :
    ((addDerived name df).cols).filter p = df.cols.filter p := by
  unfold addDerived
  rw [setCol_cols_filter _ _ _ _ h5, setCol_cols_filter _ _ _ _ h4,
    setCol_cols_filter _ _ _ _ h3, setCol_cols_filter _ _ _ _ h3,
    setCol_cols_filter _ _ _ _ h2, setCol_cols_filter _ _ _ _ h1]

theorem addDerived_rows (name : String) (df : DFrame) :
    (addDerived name df).rows = df.rows.map (override name) := by
  unfold addDerived
  simp only [setCol_rows, List.map_map]
  rfl

theorem process_cols (name : String) (df : DFrame) :
    (process_payroll_file name df).cols =
      leading ++ df.cols.filter
        (fun c => decide (c ∉ leading) && decide (c ≠ "Payroll Period")) := by
  simp only [process_payroll_file, select_cols, dropCol_cols]
  rw [List.append_right_inj]
  rw [List.filter_filter,
    addDerived_cols_filter _ _ _ (by decide) (by decide) (by decide) (by decide) (by decide),
    empIdFilter_cols, dropSpacers_cols]

theorem process_rows (name : String) (df : DFrame) :
    (process_payroll_file name df).rows =
      (empIdFilter (dropSpacers df)).rows.map (override name) := by
  simp only [process_payroll_file, select_rows, dropCol_rows, addDerived_rows]

theorem override_month (name : String) (r : String → Value) :
    override name r "Month" = monthValue (payrollDate name) := by
  simp [override, upd, Function.comp]

theorem override_cutoff (name : String) (r : String → Value) :
    override name r "Cutoff Type" =
      Value.str (cutoffLambda ((payrollDate name).map PDate.day)) := by
  simp [override, upd, Function.comp]

theorem override_payrollDate (name : String) (r : String → Value) :
    override name r "Payroll Date" = dateValue (payrollDate name) := by
  simp [override, upd, Function.comp]

theorem override_payrollType (name : String) (r : String → Value) :
    override name r "Payroll Type" = Value.str (payrollType name) := by
  simp [override, upd, Function.comp]

theorem override_other (name : String) (r : String → Value) (c : String)
    (h1 : c ≠ "Payroll Type") (h2 : c ≠ "Payroll Date") (h3 : c ≠ "Month")
    (h4 : c ≠ "Cutoff Type") (h5 : c ≠ "Payroll Period") :
    override name r c = r c := by
  simp [override, upd, Function.comp, h1, h2, h3, h4, h5]

/-- A small concrete table used for witnesses: one data column `A` and
three rows (two of them are the spacer rows the extractor drops). -/
def sampleTable : DFrame :=
  ⟨["A"], [fun _ => Value.str "x", fun _ => Value.str "y", fun _ => Value.str "z"]⟩

/-- C4: after extraction the first four columns are exactly
`Payroll Type, Payroll Date, Month, Cutoff Type` in that order, followed
by the remaining original columns in their original relative order, and
the helper column `Payroll Period` never appears. -/
theorem extract_leading_columns (name : String) (df : DFrame) :
    (process_payroll_file name df).cols =
      leading ++ df.cols.filter
        (fun c => decide (c ∉ leading) && decide (c ≠ "Payroll Period")) ∧
    "Payroll Period" ∉ (process_payroll_file name df).cols := by
  refine ⟨process_cols name df, ?_⟩
  rw [process_cols name df]
  intro hmem
  rcases List.mem_append.mp hmem with h | h
  · simp [leading] at h
  · have := List.of_mem_filter h
    simp at this

/-- C2 counterexample: a payroll file whose base name has no hyphen gives
a null `Payroll Date`, and the extracted row then has `Month` null but
`Cutoff Type` equal to the string `"Other"`, not null — the day-mapping
lambda is applied to the missing day as well. -/
theorem null_date_cutoff_not_null_cex :
    payrollDate "Regular.xlsx" = none ∧
    ((process_payroll_file "Regular.xlsx" sampleTable).rows.map
      (fun r => (r "Payroll Date", r "Cutoff Type", r "Month"))) =
      [(Value.null, Value.str "Other", Value.null)] ∧
    Value.str "Other" ≠ Value.null := by decide

/-- C2 amended: for every extracted row whose `Payroll Date` is null, the
`Month` field is null, but the `Cutoff Type` field is the string
`"Other"` (`Series.map` applies the lambda to the missing day, where both
comparisons are false). -/
theorem null_date_month_null_cutoff_other (name : String) (df : DFrame)
    (h : payrollDate name = none) :
    ∀ r ∈ (process_payroll_file name df).rows,
      r "Payroll Date" = Value.null ∧ r "Month" = Value.null ∧
      r "Cutoff Type" = Value.str "Other" := by
  intro r hr
  rw [process_rows] at hr
  obtain ⟨r0, _, rfl⟩ := List.mem_map.mp hr
  refine ⟨?_, ?_, ?_⟩
  · rw [override_payrollDate, h]; rfl
  · rw [override_month, h]; rfl
  · rw [override_cutoff, h]; rfl

theorem null_date_month_null_cutoff_other_witness :
    payrollDate "Regular.xlsx" = none ∧
    (∀ r ∈ (process_payroll_file "Regular.xlsx" sampleTable).rows,
      r "Payroll Date" = Value.null ∧ r "Month" = Value.null ∧
      r "Cutoff Type" = Value.str "Other") :=
  ⟨by decide, null_date_month_null_cutoff_other "Regular.xlsx" sampleTable (by decide)⟩

/-- C3: for rows with a non-null `Payroll Date`, `Cutoff Type` is
`First Cutoff` iff the day is 15, `Second Cutoff` iff the day is 30 or
31, and `Other` for every other day. -/
theorem cutoff_type_day_rule (name : String) (df : DFrame) (d : PDate)
    (h : payrollDate name = some d) :
    ∀ r ∈ (process_payroll_file name df).rows,
      (r "Cutoff Type" = Value.str "First Cutoff" ↔ d.day = 15) ∧
      (r "Cutoff Type" = Value.str "Second Cutoff" ↔ d.day = 30 ∨ d.day = 31) ∧
      (d.day ≠ 15 → d.day ≠ 30 → d.day ≠ 31 → r "Cutoff Type" = Value.str "Other") := by
  intro r hr
  rw [process_rows] at hr
  obtain ⟨r0, _, rfl⟩ := List.mem_map.mp hr
  rw [override_cutoff, h]
  by_cases h15 : d.day = 15
  · simp [cutoffLambda, h15]
  · by_cases h30 : d.day = 30
    · simp [cutoffLambda, h30]
    · by_cases h31 : d.day = 31
      · simp [cutoffLambda, h31]
      · simp [cutoffLambda, h15, h30, h31]

theorem cutoff_type_day_rule_witness :
    payrollDate "Regular-01312024.xlsx" = some ⟨1, 31, 2024⟩ ∧
    (∀ r ∈ (process_payroll_file "Regular-01312024.xlsx" sampleTable).rows,
      (r "Cutoff Type" = Value.str "First Cutoff" ↔ (PDate.mk 1 31 2024).day = 15) ∧
      (r "Cutoff Type" = Value.str "Second Cutoff" ↔
        (PDate.mk 1 31 2024).day = 30 ∨ (PDate.mk 1 31 2024).day = 31) ∧
      ((PDate.mk 1 31 2024).day ≠ 15 → (PDate.mk 1 31 2024).day ≠ 30 →
        (PDate.mk 1 31 2024).day ≠ 31 →
        r "Cutoff Type" = Value.str "Other")) :=
  ⟨by decide, cutoff_type_day_rule "Regular-01312024.xlsx" sampleTable ⟨1, 31, 2024⟩ (by decide)⟩

/-- C5: when a column named exactly `Employee ID*` exists, extraction
retains exactly the rows whose stringified value in that column matches
the `\d{3}-\d{6}` pattern (each retained row then carrying the derived
fields); when the column is absent, no row is removed at this step. -/
theorem empid_filter_rows (df : DFrame) (name : String) :
    ("Employee ID*" ∈ df.cols →
      (process_payroll_file name df).rows =
        ((dropSpacers df).rows.filter
          (fun r => matchEmpId (Value.toStr (r "Employee ID*")))).map (override name)) ∧
    ("Employee ID*" ∉ df.cols →
      (process_payroll_file name df).rows = (dropSpacers df).rows.map (override name)) := by
  constructor
  · intro hmem
    rw [process_rows]
    unfold empIdFilter
    rw [if_pos (by rw [dropSpacers_cols]; exact hmem)]
  · intro hmem
    rw [process_rows]
    unfold empIdFilter
    rw [if_neg (by rw [dropSpacers_cols]; exact hmem)]

/-- A second concrete table, with an `Employee ID*` column: after the two
spacer rows, one row has a matching identifier and one does not. -/
def sampleIdTable : DFrame :=
  ⟨["Employee ID*", "B"],
   [fun _ => Value.null, fun _ => Value.null,
    upd "Employee ID*" (Value.str "012-345678") (fun _ => Value.str "keep"),
    upd "Employee ID*" (Value.str "bogus") (fun _ => Value.str "drop"),
    upd "Employee ID*" Value.null (fun _ => Value.str "missing")]⟩

theorem empid_filter_rows_witness :
    "Employee ID*" ∈ sampleIdTable.cols ∧
    (process_payroll_file "Regular-01152024.xlsx" sampleIdTable).rows =
      ((dropSpacers sampleIdTable).rows.filter
        (fun r => matchEmpId (Value.toStr (r "Employee ID*")))).map
          (override "Regular-01152024.xlsx") ∧
    ((process_payroll_file "Regular-01152024.xlsx" sampleIdTable).rows.map
      (fun r => r "B")) = [Value.str "keep"] :=
  ⟨by decide, (empid_filter_rows sampleIdTable "Regular-01152024.xlsx").1 (by decide),
    by decide⟩

/-- C10: extraction unconditionally overwrites the columns
`Payroll Type`, `Payroll Date`, `Month`, `Cutoff Type` with the
filename-derived values (so any original data in a column with one of
those names is replaced), drops `Payroll Period` entirely, and returns
every other column's data unchanged on the surviving rows. -/
theorem derived_columns_overwrite (name : String) (df : DFrame) :
    "Payroll Period" ∉ (process_payroll_file name df).cols ∧
    ∀ r ∈ (process_payroll_file name df).rows,
      ∃ r0 ∈ (empIdFilter (dropSpacers df)).rows,
        r "Payroll Type" = Value.str (payrollType name) ∧
        r "Payroll Date" = dateValue (payrollDate name) ∧
        r "Month" = monthValue (payrollDate name) ∧
        r "Cutoff Type" = Value.str (cutoffLambda ((payrollDate name).map PDate.day)) ∧
        ∀ c, c ≠ "Payroll Type" → c ≠ "Payroll Date" → c ≠ "Month" →
          c ≠ "Cutoff Type" → c ≠ "Payroll Period" → r c = r0 c := by
  constructor
  · rw [process_cols name df]
    intro hmem
    rcases List.mem_append.mp hmem with h | h
    · simp [leading] at h
    · have := List.of_mem_filter h
      simp at this
  · intro r hr
    rw [process_rows] at hr
    obtain ⟨r0, hr0, rfl⟩ := List.mem_map.mp hr
    exact ⟨r0, hr0, override_payrollType name r0, override_payrollDate name r0,
      override_month name r0, override_cutoff name r0,
      fun c h1 h2 h3 h4 h5 => override_other name r0 c h1 h2 h3 h4 h5⟩

theorem derived_columns_overwrite_witness :
    "Payroll Period" ∉ (process_payroll_file "Regular-01152024.xlsx" sampleIdTable).cols ∧
    ((process_payroll_file "Regular-01152024.xlsx" sampleIdTable).rows.map
      (fun r => (r "Payroll Type", r "Cutoff Type", r "B"))) =
      [(Value.str "Regular", Value.str "First Cutoff", Value.str "keep")] :=
  ⟨(derived_columns_overwrite "Regular-01152024.xlsx" sampleIdTable).1, by decide⟩

/-! ## Lemmas about the Column Reconciler -/

theorem uniqKeep_spec (allCols : List String) :
    ∀ (l acc : List String), acc.Nodup → (∀ c ∈ acc, c ∈ allCols) →
      (uniqKeep allCols acc l).Nodup ∧
      (∀ c, c ∈ uniqKeep allCols acc l ↔ c ∈ acc ∨ (c ∈ l ∧ c ∈ allCols)) := by
  intro l
  induction l with
  | nil =>
    intro acc h1 _
    refine ⟨h1, fun c => ?_⟩
    simp [uniqKeep]
  | cons c cs ih =>
    intro acc h1 h2
    unfold uniqKeep
    split
    · rename_i hc
      obtain ⟨hn, hm⟩ := ih acc h1 h2
      refine ⟨hn, fun x => ?_⟩
      rw [hm x]
      simp only [List.mem_cons]
      rcases hc with hc | hc
      · constructor
        · rintro (h | ⟨h, h'⟩)
          · exact Or.inl h
          · exact Or.inr ⟨Or.inr h, h'⟩
        · rintro (h | ⟨h | h, h'⟩)
          · exact Or.inl h
          · exact Or.inl (h ▸ hc)
          · exact Or.inr ⟨h, h'⟩
      · constructor
        · rintro (h | ⟨h, h'⟩)
          · exact Or.inl h
          · exact Or.inr ⟨Or.inr h, h'⟩
        · rintro (h | ⟨h | h, h'⟩)
          · exact Or.inl h
          · exact absurd (h ▸ h') hc
          · exact Or.inr ⟨h, h'⟩
    · rename_i hc
      push_neg at hc
      obtain ⟨hca, hcin⟩ := hc
      have h1' : (acc ++ [c]).Nodup := by
        simp [List.nodup_append, h1, hca]
      have h2' : ∀ x ∈ acc ++ [c], x ∈ allCols := by
        intro x hx
        rcases List.mem_append.mp hx with h | h
        · exact h2 x h
        · simp at h; exact h ▸ hcin
      obtain ⟨hn, hm⟩ := ih (acc ++ [c]) h1' h2'
      refine ⟨hn, fun x => ?_⟩
      rw [hm x]
      simp only [List.mem_append, List.mem_cons, List.not_mem_nil, or_false]
      constructor
      · rintro ((h | h) | ⟨h, h'⟩)
        · exact Or.inl h
        · exact Or.inr ⟨Or.inl h, h ▸ hcin⟩
        · exact Or.inr ⟨Or.inr h, h'⟩
      · rintro (h | ⟨h | h, h'⟩)
        · exact Or.inl (Or.inl h)
        · exact Or.inl (Or.inr h)
        · exact Or.inr ⟨h, h'⟩

theorem addMissing_spec :
    ∀ (l acc : List String), acc.Nodup →
      (addMissing acc l).Nodup ∧
      (∀ c, c ∈ addMissing acc l ↔ c ∈ acc ∨ c ∈ l) := by
  intro l
  induction l with
  | nil =>
    intro acc h1
    refine ⟨h1, fun c => ?_⟩
    simp [addMissing]
  | cons c cs ih =>
    intro acc h1
    unfold addMissing
    split
    · rename_i hc
      obtain ⟨hn, hm⟩ := ih acc h1
      refine ⟨hn, fun x => ?_⟩
      rw [hm x]
      simp only [List.mem_cons]
      constructor
      · rintro (h | h)
        · exact Or.inl h
        · exact Or.inr (Or.inr h)
      · rintro (h | h | h)
        · exact Or.inl h
        · exact Or.inl (h ▸ hc)
        · exact Or.inr h
    · rename_i hc
      have h1' : (acc ++ [c]).Nodup := by
        simp [List.nodup_append, h1, hc]
      obtain ⟨hn, hm⟩ := ih (acc ++ [c]) h1'
      refine ⟨hn, fun x => ?_⟩
      rw [hm x]
      simp only [List.mem_append, List.mem_cons, List.not_mem_nil, or_false]
      constructor
      · rintro ((h | h) | h)
        · exact Or.inl h
        · exact Or.inr (Or.inl h)
        · exact Or.inr (Or.inr h)
      · rintro (h | h | h)
        · exact Or.inl (Or.inl h)
        · exact Or.inl (Or.inr h)
        · exact Or.inr h

/-- C1: the Column Reconciler returns a table whose columns are exactly
the set of the input table's columns, each appearing exactly once —
no column dropped, no duplicates, and no column fabricated from the
canonical list — for every input table and every canonical column list. -/
theorem reorder_preserves_column_set (df : DFrame) (refCols : List String) :
    (reorder_like_reference df refCols).cols.Nodup ∧
    ∀ c, c ∈ (reorder_like_reference df refCols).cols ↔ c ∈ df.cols := by
  have hcols : (reorder_like_reference df refCols).cols = reorderCols df.cols refCols := rfl
  rw [hcols]
  unfold reorderCols
  obtain ⟨hn1, hm1⟩ := uniqKeep_spec df.cols
    ((df.cols.filter (fun c => decide (c ∉ refCols))).foldl insertNear refCols) []
    List.nodup_nil (by simp)
  obtain ⟨hn2, hm2⟩ := addMissing_spec df.cols
    (uniqKeep df.cols []
      ((df.cols.filter (fun c => decide (c ∉ refCols))).foldl insertNear refCols)) hn1
  refine ⟨hn2, fun c => ?_⟩
  rw [hm2 c, hm1 c]
  simp only [List.not_mem_nil, false_or]
  constructor
  · rintro (⟨_, h⟩ | h) <;> exact h
  · exact fun h => Or.inr h

theorem range_filter_getLast_none (q : Nat → Bool) :
    ∀ n, (((List.range n).filter q).getLast? = none) ↔ ∀ k, k < n → q k = false := by
  intro n
  induction n with
  | zero => simp
  | succ n ih =>
    rw [List.range_succ, List.filter_append]
    by_cases hq : q n = true
    · have hfil : List.filter q [n] = [n] := by simp [List.filter_cons, hq]
      rw [hfil, List.getLast?_concat]
      constructor
      · intro h
        exact absurd h (Option.some_ne_none n)
      · intro h
        exact absurd (h n (Nat.lt_succ_self n)) (by simp [hq])
    · have hq' : q n = false := by simpa using hq
      have hfil : List.filter q [n] = [] := by simp [List.filter_cons, hq']
      rw [hfil, List.append_nil, ih]
      constructor
      · intro h k hk
        rcases Nat.lt_succ_iff_lt_or_eq.mp hk with hk' | hk'
        · exact h k hk'
        · subst hk'; exact hq'
      · exact fun h k hk => h k (Nat.lt_succ_of_lt hk)

theorem range_filter_getLast_some (q : Nat → Bool) :
    ∀ n j, j < n → q j = true → (∀ k, j < k → k < n → q k = false) →
      ((List.range n).filter q).getLast? = some j := by
  intro n
  induction n with
  | zero => intro j hj; exact absurd hj (Nat.not_lt_zero j)
  | succ n ih =>
    intro j hj hqj hmax
    rw [List.range_succ, List.filter_append]
    by_cases hjn : j = n
    · subst hjn
      have hfil : List.filter q [j] = [j] := by simp [List.filter_cons, hqj]
      rw [hfil]
      exact List.getLast?_concat _
    · have hjn' : j < n := Nat.lt_of_le_of_ne (Nat.le_of_lt_succ hj) hjn
      have hqn : q n = false := hmax n hjn' (Nat.lt_succ_self n)
      have hfil : List.filter q [n] = [] := by simp [List.filter_cons, hqn]
      rw [hfil, List.append_nil]
      exact ih j hjn' hqj (fun k h1 h2 => hmax k h1 (Nat.lt_succ_of_lt h2))

/-- C8: for each extra column, the Reconciler strips trailing digits to
obtain `base`; if `base` is non-empty and some name of the current
output order contains it as a substring, the column is inserted
immediately after the last such position; if `base` is empty or no name
contains it, the column is appended at the end.  (The extras are
processed by `reorderCols` in the table's original column order via
`foldl insertNear`.) -/
theorem extras_insert_after_last_match (newOrder : List String) (col : String) :
    ((stripTrailingDigits col = "" ∨
        ∀ c ∈ newOrder, containsSub c (stripTrailingDigits col) = false) →
      insertNear newOrder col = newOrder ++ [col]) ∧
    (∀ j, j < newOrder.length → stripTrailingDigits col ≠ "" →
      containsSub (newOrder.getD j "") (stripTrailingDigits col) = true →
      (∀ k, j < k → k < newOrder.length →
        containsSub (newOrder.getD k "") (stripTrailingDigits col) = false) →
      insertNear newOrder col =
        newOrder.take (j + 1) ++ col :: newOrder.drop (j + 1)) := by
  constructor
  · intro h
    have hnone : ((List.range newOrder.length).filter
        (fun i => !(stripTrailingDigits col == "") &&
          containsSub (newOrder.getD i "") (stripTrailingDigits col))).getLast? = none := by
      rw [range_filter_getLast_none]
      intro k hk
      rcases h with h | h
      · simp [h]
      · have hmem : newOrder.getD k "" ∈ newOrder := by
          rw [List.getD_eq_getElem newOrder "" hk]
          exact List.getElem_mem hk
        show (!(stripTrailingDigits col == "") &&
          containsSub (newOrder.getD k "") (stripTrailingDigits col)) = false
        rw [h _ hmem, Bool.and_false]
    simp only [insertNear]
    rw [hnone]
  · intro j hj hbase hcont hmax
    have hb : (stripTrailingDigits col == "") = false := beq_eq_false_iff_ne.mpr hbase
    have hsome : ((List.range newOrder.length).filter
        (fun i => !(stripTrailingDigits col == "") &&
          containsSub (newOrder.getD i "") (stripTrailingDigits col))).getLast? = some j := by
      apply range_filter_getLast_some
      · exact hj
      · show (!(stripTrailingDigits col == "") &&
          containsSub (newOrder.getD j "") (stripTrailingDigits col)) = true
        rw [hcont, hb]
        rfl
      · intro k h1 h2
        show (!(stripTrailingDigits col == "") &&
          containsSub (newOrder.getD k "") (stripTrailingDigits col)) = false
        rw [hmax k h1 h2, Bool.and_false]
    simp only [insertNear]
    rw [hsome]
    rfl

theorem extras_insert_after_last_match_witness :
    stripTrailingDigits "Pay2" ≠ "" ∧
    insertNear ["Pay1", "Other"] "Pay2" = ["Pay1", "Pay2", "Other"] := by
  refine ⟨by decide, ?_⟩
  have h := (extras_insert_after_last_match ["Pay1", "Other"] "Pay2").2 0
    (by decide) (by decide) (by decide) ?_
  · exact h
  · intro k h1 h2
    have h2' : k < 2 := by simpa using h2
    have hk1 : k = 1 := by omega
    subst hk1
    decide

/-! ## Lemmas about the Consolidator loop -/

theorem consolidateAux_skip (f : UFile) (l : List UFile) (s : List String)
    (hx : isXlsx f.name = true) (hs : stripExt f.name ∈ s) :
    consolidateAux (f :: l) s =
      ((consolidateAux l s).1, (consolidateAux l s).2.1,
        f.name :: (consolidateAux l s).2.2) := by
  simp [consolidateAux, hx, hs]

theorem consolidateAux_ok (f : UFile) (l : List UFile) (s : List String) (df : DFrame)
    (hx : isXlsx f.name = true) (hs : stripExt f.name ∉ s)
    (hok : processFile f = .ok df) :
    consolidateAux (f :: l) s =
      (df :: (consolidateAux l (stripExt f.name :: s)).1,
        f.name :: (consolidateAux l (stripExt f.name :: s)).2.1,
        (consolidateAux l (stripExt f.name :: s)).2.2) := by
  simp [consolidateAux, hx, hs, hok]

theorem consolidateAux_error (f : UFile) (l : List UFile) (s : List String) (e : String)
    (hx : isXlsx f.name = true) (hs : stripExt f.name ∉ s)
    (he : processFile f = .error e) :
    consolidateAux (f :: l) s = consolidateAux l (stripExt f.name :: s) := by
  simp [consolidateAux, hx, hs, he]

theorem consolidateAux_notxlsx (f : UFile) (l : List UFile) (s : List String)
    (hx : isXlsx f.name = false) :
    consolidateAux (f :: l) s = consolidateAux l s := by
  simp [consolidateAux, hx]

theorem consolidateAux_append :
    ∀ (l1 l2 : List UFile) (s : List String),
      consolidateAux (l1 ++ l2) s =
        ((consolidateAux l1 s).1 ++ (consolidateAux l2 (seenAfter l1 s)).1,
         (consolidateAux l1 s).2.1 ++ (consolidateAux l2 (seenAfter l1 s)).2.1,
         (consolidateAux l1 s).2.2 ++ (consolidateAux l2 (seenAfter l1 s)).2.2) := by
  intro l1
  induction l1 with
  | nil => intro l2 s; simp [consolidateAux, seenAfter]
  | cons f l1 ih =>
    intro l2 s
    by_cases hx : isXlsx f.name = true
    · by_cases hs : stripExt f.name ∈ s
      · rw [List.cons_append, consolidateAux_skip f (l1 ++ l2) s hx hs,
          consolidateAux_skip f l1 s hx hs]
        have hseen : seenAfter (f :: l1) s = seenAfter l1 s := by
          simp [seenAfter, hx, hs]
        rw [hseen, ih l2 s]
        simp
      · rcases hok : processFile f with e | df
        · rw [List.cons_append, consolidateAux_error f (l1 ++ l2) s e hx hs hok,
            consolidateAux_error f l1 s e hx hs hok]
          have hseen : seenAfter (f :: l1) s = seenAfter l1 (stripExt f.name :: s) := by
            simp [seenAfter, hx, hs]
          rw [hseen, ih l2 (stripExt f.name :: s)]
        · rw [List.cons_append, consolidateAux_ok f (l1 ++ l2) s df hx hs hok,
            consolidateAux_ok f l1 s df hx hs hok]
          have hseen : seenAfter (f :: l1) s = seenAfter l1 (stripExt f.name :: s) := by
            simp [seenAfter, hx, hs]
          rw [hseen, ih l2 (stripExt f.name :: s)]
          simp
    · have hx' : isXlsx f.name = false := by simpa using hx
      rw [List.cons_append, consolidateAux_notxlsx f (l1 ++ l2) s hx',
        consolidateAux_notxlsx f l1 s hx']
      have hseen : seenAfter (f :: l1) s = seenAfter l1 s := by
        simp [seenAfter, hx']
      rw [hseen, ih l2 s]

theorem mem_seenAfter :
    ∀ (l : List UFile) (s : List String) (b : String),
      b ∈ seenAfter l s ↔
        b ∈ s ∨ ∃ g ∈ l, isXlsx g.name = true ∧ stripExt g.name = b := by
  intro l
  induction l with
  | nil => intro s b; simp [seenAfter]
  | cons f l ih =>
    intro s b
    by_cases hx : isXlsx f.name = true
    · by_cases hs : stripExt f.name ∈ s
      · rw [show seenAfter (f :: l) s = seenAfter l s by simp [seenAfter, hx, hs], ih]
        simp only [List.mem_cons]
        constructor
        · rintro (h | ⟨g, hg, hgx, hgb⟩)
          · exact Or.inl h
          · exact Or.inr ⟨g, Or.inr hg, hgx, hgb⟩
        · rintro (h | ⟨g, hg | hg, hgx, hgb⟩)
          · exact Or.inl h
          · exact Or.inl (by rw [← hgb, hg]; exact hs)
          · exact Or.inr ⟨g, hg, hgx, hgb⟩
      · rw [show seenAfter (f :: l) s = seenAfter l (stripExt f.name :: s) by
            simp [seenAfter, hx, hs], ih]
        simp only [List.mem_cons]
        constructor
        · rintro ((h | h) | ⟨g, hg, hgx, hgb⟩)
          · exact Or.inr ⟨f, Or.inl rfl, hx, h.symm⟩
          · exact Or.inl h
          · exact Or.inr ⟨g, Or.inr hg, hgx, hgb⟩
        · rintro (h | ⟨g, hg | hg, hgx, hgb⟩)
          · exact Or.inl (Or.inr h)
          · exact Or.inl (Or.inl (by rw [← hgb, hg]))
          · exact Or.inr ⟨g, hg, hgx, hgb⟩
    · have hx' : isXlsx f.name = false := by simpa using hx
      rw [show seenAfter (f :: l) s = seenAfter l s by simp [seenAfter, hx'], ih]
      simp only [List.mem_cons]
      constructor
      · rintro (h | ⟨g, hg, hgx, hgb⟩)
        · exact Or.inl h
        · exact Or.inr ⟨g, Or.inr hg, hgx, hgb⟩
      · rintro (h | ⟨g, hg | hg, hgx, hgb⟩)
        · exact Or.inl h
        · exact absurd (hg ▸ hgx) (by simp [hx'])
        · exact Or.inr ⟨g, hg, hgx, hgb⟩

theorem seenAfter_subset (l : List UFile) (s : List String) (b : String) (h : b ∈ s) :
    b ∈ seenAfter l s :=
  (mem_seenAfter l s b).mpr (Or.inl h)

theorem consolidateAux_dup (l2 l3 : List UFile) (f2 : UFile) (s : List String)
    (hx : isXlsx f2.name = true) (hs : stripExt f2.name ∈ s) :
    (consolidateAux (l2 ++ f2 :: l3) s).1 = (consolidateAux (l2 ++ l3) s).1 ∧
    (consolidateAux (l2 ++ f2 :: l3) s).2.1 = (consolidateAux (l2 ++ l3) s).2.1 ∧
    f2.name ∈ (consolidateAux (l2 ++ f2 :: l3) s).2.2 := by
  have hs2 : stripExt f2.name ∈ seenAfter l2 s := seenAfter_subset l2 s _ hs
  rw [consolidateAux_append l2 (f2 :: l3) s, consolidateAux_append l2 l3 s,
    consolidateAux_skip f2 l3 (seenAfter l2 s) hx hs2]
  refine ⟨rfl, rfl, ?_⟩
  exact List.mem_append_right _ (List.mem_cons_self _ _)

theorem consolidateAux_processed_mem :
    ∀ (l : List UFile) (s : List String) (n : String),
      n ∈ (consolidateAux l s).2.1 →
      ∃ g ∈ l, g.name = n ∧ isXlsx g.name = true ∧ stripExt g.name ∉ s := by
  intro l
  induction l with
  | nil => intro s n h; simp [consolidateAux] at h
  | cons f l ih =>
    intro s n h
    by_cases hx : isXlsx f.name = true
    · by_cases hs : stripExt f.name ∈ s
      · rw [consolidateAux_skip f l s hx hs] at h
        obtain ⟨g, hg, hgn, hgx, hgs⟩ := ih s n h
        exact ⟨g, List.mem_cons_of_mem _ hg, hgn, hgx, hgs⟩
      · rcases hpf : processFile f with e | df
        · rw [consolidateAux_error f l s e hx hs hpf] at h
          obtain ⟨g, hg, hgn, hgx, hgs⟩ := ih _ n h
          exact ⟨g, List.mem_cons_of_mem _ hg, hgn, hgx,
            fun hmem => hgs (List.mem_cons_of_mem _ hmem)⟩
        · rw [consolidateAux_ok f l s df hx hs hpf] at h
          rcases List.mem_cons.mp h with h | h
          · exact ⟨f, List.mem_cons_self _ _, h.symm, hx, hs⟩
          · obtain ⟨g, hg, hgn, hgx, hgs⟩ := ih _ n h
            exact ⟨g, List.mem_cons_of_mem _ hg, hgn, hgx,
              fun hmem => hgs (List.mem_cons_of_mem _ hmem)⟩
    · have hx' : isXlsx f.name = false := by simpa using hx
      rw [consolidateAux_notxlsx f l s hx'] at h
      obtain ⟨g, hg, hgn, hgx, hgs⟩ := ih s n h
      exact ⟨g, List.mem_cons_of_mem _ hg, hgn, hgx, hgs⟩

theorem consolidate_processed (u : List UFile) (rc : List String) :
    (consolidate u rc).processed = (consolidateAux u []).2.1 := by
  simp only [consolidate]
  split <;> rfl

theorem consolidate_skipped (u : List UFile) (rc : List String) :
    (consolidate u rc).skipped = (consolidateAux u []).2.2 := by
  simp only [consolidate]
  split <;> rfl

theorem consolidate_table_congr (u v : List UFile) (rc : List String)
    (h : (consolidateAux u []).1 = (consolidateAux v []).1) :
    (consolidate u rc).table = (consolidate v rc).table := by
  simp only [consolidate]
  rw [h]
  split <;> rfl

/-- C7: an extraction failure on one payroll file is recovered locally —
the failing file contributes nothing to the tables or the processed
list (only its base name is reserved) and the loop simply continues
with the remaining files — whereas an extraction failure on the
reference file propagates out of `derive_ref_columns` unchanged, so the
run has no canonical order and no consolidation is attempted. -/
theorem payroll_error_recovered_ref_error_propagates :
    (∀ (f : UFile) (l2 : List UFile) (seen : List String) (e : String),
      isXlsx f.name = true → stripExt f.name ∉ seen → processFile f = .error e →
      consolidateAux (f :: l2) seen = consolidateAux l2 (stripExt f.name :: seen)) ∧
    (∀ (ref : UFile) (e : String), processFile ref = .error e →
      derive_ref_columns ref = .error e) := by
  constructor
  · exact fun f l2 seen e hx hs he => consolidateAux_error f l2 seen e hx hs he
  · intro ref e h
    simp [derive_ref_columns, h]

/-- A well-formed payroll upload whose spreadsheet reads successfully. -/
def fileGood : UFile := ⟨"Regular-01152024.xlsx", .ok sampleTable⟩

/-- A second upload with the same base filename as `fileGood`. -/
def fileDup : UFile := ⟨"Regular-01152024.xlsx", .ok sampleIdTable⟩

/-- An upload whose spreadsheet cannot be read. -/
def fileBad : UFile := ⟨"Special-01152024.xlsx", .error "boom"⟩

/-- An upload sharing `fileBad`'s base filename, readable. -/
def fileBadTwin : UFile := ⟨"Special-01152024.xlsx", .ok sampleTable⟩

theorem payroll_error_recovered_witness :
    isXlsx fileBad.name = true ∧
    consolidateAux [fileBad, fileGood] [] =
      consolidateAux [fileGood] [stripExt fileBad.name] ∧
    derive_ref_columns fileBad = .error "boom" := by
  refine ⟨by decide, ?_, ?_⟩
  · exact payroll_error_recovered_ref_error_propagates.1 fileBad [fileGood] [] "boom"
      (by decide) (by simp) rfl
  · exact payroll_error_recovered_ref_error_propagates.2 fileBad "boom" rfl

/-- C6: when two uploads with the accepted extension share a base
filename, the later one is recorded under `skipped`, the earlier one is
processed (its table is in the accumulated list), and the later file
contributes nothing: the consolidated table and the processed list are
those of the run without the later file. -/
theorem duplicate_base_skipped (l1 l2 l3 : List UFile) (f1 f2 : UFile) (t1 : DFrame)
    (refCols : List String)
    (hx1 : isXlsx f1.name = true) (hx2 : isXlsx f2.name = true)
    (hb : stripExt f2.name = stripExt f1.name)
    (hfresh : ∀ g ∈ l1, isXlsx g.name = true → stripExt g.name ≠ stripExt f1.name)
    (hok : processFile f1 = .ok t1) :
    f2.name ∈ (consolidate (l1 ++ f1 :: (l2 ++ f2 :: l3)) refCols).skipped ∧
    f1.name ∈ (consolidate (l1 ++ f1 :: (l2 ++ f2 :: l3)) refCols).processed ∧
    t1 ∈ (consolidateAux (l1 ++ f1 :: (l2 ++ f2 :: l3)) []).1 ∧
    (consolidate (l1 ++ f1 :: (l2 ++ f2 :: l3)) refCols).table =
      (consolidate (l1 ++ f1 :: (l2 ++ l3)) refCols).table ∧
    (consolidate (l1 ++ f1 :: (l2 ++ f2 :: l3)) refCols).processed =
      (consolidate (l1 ++ f1 :: (l2 ++ l3)) refCols).processed := by
  have hnot : stripExt f1.name ∉ seenAfter l1 [] := by
    rw [mem_seenAfter]
    rintro (h | ⟨g, hg, hgx, hgb⟩)
    · exact List.not_mem_nil _ h
    · exact hfresh g hg hgx hgb
  have e1 := consolidateAux_append l1 (f1 :: (l2 ++ f2 :: l3)) []
  have e2 := consolidateAux_ok f1 (l2 ++ f2 :: l3) (seenAfter l1 []) t1 hx1 hnot hok
  have e1' := consolidateAux_append l1 (f1 :: (l2 ++ l3)) []
  have e2' := consolidateAux_ok f1 (l2 ++ l3) (seenAfter l1 []) t1 hx1 hnot hok
  have hs1 : stripExt f2.name ∈ stripExt f1.name :: seenAfter l1 [] := by
    rw [hb]; exact List.mem_cons_self _ _
  have hdup := consolidateAux_dup l2 l3 f2 (stripExt f1.name :: seenAfter l1 []) hx2 hs1
  refine ⟨?_, ?_, ?_, ?_, ?_⟩
  · rw [consolidate_skipped, e1, e2]
    exact List.mem_append_right _ hdup.2.2
  · rw [consolidate_processed, e1, e2]
    exact List.mem_append_right _ (List.mem_cons_self _ _)
  · rw [e1, e2]
    exact List.mem_append_right _ (List.mem_cons_self _ _)
  · apply consolidate_table_congr
    rw [e1, e2, e1', e2']
    show (consolidateAux l1 []).1 ++ t1 :: (consolidateAux (l2 ++ f2 :: l3) _).1 =
      (consolidateAux l1 []).1 ++ t1 :: (consolidateAux (l2 ++ l3) _).1
    rw [hdup.1]
  · rw [consolidate_processed, consolidate_processed, e1, e2, e1', e2']
    show (consolidateAux l1 []).2.1 ++ f1.name :: (consolidateAux (l2 ++ f2 :: l3) _).2.1 =
      (consolidateAux l1 []).2.1 ++ f1.name :: (consolidateAux (l2 ++ l3) _).2.1
    rw [hdup.2.1]

theorem duplicate_base_skipped_witness :
    isXlsx fileGood.name = true ∧ stripExt fileDup.name = stripExt fileGood.name ∧
    fileDup.name ∈ (consolidate [fileGood, fileDup] []).skipped ∧
    fileGood.name ∈ (consolidate [fileGood, fileDup] []).processed := by
  have h := duplicate_base_skipped [] [] [] fileGood fileDup
    (process_payroll_file fileGood.name sampleTable) [] (by decide) (by decide) rfl
    (by simp) rfl
  exact ⟨by decide, rfl, h.1, h.2.1⟩

/-- C9: a base filename is reserved before extraction is attempted, so
when the first file with a base name fails to extract, a later file
with the same base is still skipped rather than processed: the later
name lands in `skipped`, neither name is in `processed`, and the
accumulated tables are exactly those of the other files. -/
theorem failed_base_reserved (l1 l2 l3 : List UFile) (f1 f2 : UFile) (e : String)
    (refCols : List String)
    (hx1 : isXlsx f1.name = true) (hx2 : isXlsx f2.name = true)
    (hb : stripExt f2.name = stripExt f1.name)
    (hfresh : ∀ g ∈ l1, isXlsx g.name = true → stripExt g.name ≠ stripExt f1.name)
    (herr : processFile f1 = .error e) :
    f2.name ∈ (consolidate (l1 ++ f1 :: (l2 ++ f2 :: l3)) refCols).skipped ∧
    f1.name ∉ (consolidate (l1 ++ f1 :: (l2 ++ f2 :: l3)) refCols).processed ∧
    f2.name ∉ (consolidate (l1 ++ f1 :: (l2 ++ f2 :: l3)) refCols).processed ∧
    (consolidateAux (l1 ++ f1 :: (l2 ++ f2 :: l3)) []).1 =
      (consolidateAux l1 []).1 ++
        (consolidateAux (l2 ++ l3) (stripExt f1.name :: seenAfter l1 [])).1 := by
  have hnot : stripExt f1.name ∉ seenAfter l1 [] := by
    rw [mem_seenAfter]
    rintro (h | ⟨g, hg, hgx, hgb⟩)
    · exact List.not_mem_nil _ h
    · exact hfresh g hg hgx hgb
  have e1 := consolidateAux_append l1 (f1 :: (l2 ++ f2 :: l3)) []
  have e2 := consolidateAux_error f1 (l2 ++ f2 :: l3) (seenAfter l1 []) e hx1 hnot herr
  have hs1 : stripExt f2.name ∈ stripExt f1.name :: seenAfter l1 [] := by
    rw [hb]; exact List.mem_cons_self _ _
  have hdup := consolidateAux_dup l2 l3 f2 (stripExt f1.name :: seenAfter l1 []) hx2 hs1
  refine ⟨?_, ?_, ?_, ?_⟩
  · rw [consolidate_skipped, e1, e2]
    exact List.mem_append_right _ hdup.2.2
  · rw [consolidate_processed, e1, e2]
    intro hmem
    rcases List.mem_append.mp hmem with h | h
    · obtain ⟨g, hg, hgn, hgx, _⟩ := consolidateAux_processed_mem l1 [] f1.name h
      exact hfresh g hg hgx (by rw [hgn])
    · obtain ⟨g, _, hgn, _, hgs⟩ :=
        consolidateAux_processed_mem (l2 ++ f2 :: l3) _ f1.name h
      exact hgs (by rw [hgn]; exact List.mem_cons_self _ _)
  · rw [consolidate_processed, e1, e2]
    intro hmem
    rcases List.mem_append.mp hmem with h | h
    · obtain ⟨g, hg, hgn, hgx, _⟩ := consolidateAux_processed_mem l1 [] f2.name h
      exact hfresh g hg hgx (by rw [hgn, hb])
    · obtain ⟨g, _, hgn, _, hgs⟩ :=
        consolidateAux_processed_mem (l2 ++ f2 :: l3) _ f2.name h
      exact hgs (by rw [hgn, hb]; exact List.mem_cons_self _ _)
  · rw [e1, e2]
    show (consolidateAux l1 []).1 ++ (consolidateAux (l2 ++ f2 :: l3) _).1 = _
    rw [hdup.1]

theorem failed_base_reserved_witness :
    isXlsx fileBad.name = true ∧ processFile fileBad = .error "boom" ∧
    fileBadTwin.name ∈ (consolidate [fileBad, fileBadTwin] []).skipped ∧
    fileBad.name ∉ (consolidate [fileBad, fileBadTwin] []).processed ∧
    fileBadTwin.name ∉ (consolidate [fileBad, fileBadTwin] []).processed := by
  have h := failed_base_reserved [] [] [] fileBad fileBadTwin "boom" []
    (by decide) (by decide) rfl (by simp) rfl
  exact ⟨by decide, rfl, h.1, h.2.1, h.2.2.1⟩
